import Mathlib

/-!
Verification of the poll-site spreadsheet correction scripts
(`script.py` / `script2.py`): column resolution, value normalization,
per-row processing outcomes, and output-path selection.

Python strings are modelled as `List Char` (ASCII semantics for case
mapping, whitespace and digits). Spreadsheet cell values are modelled by
the tagged type `Cell`, mirroring the dynamic types `safe_text` inspects
(`None`, float NaN, `int`, integer-valued `float`, `str`).
-/

namespace PollSite

/-- Python strings modelled as lists of characters. -/
abbrev PyStr := List Char

/-- Python's `\s` / `str.strip()` whitespace class (ASCII): space, tab,
newline, carriage return, vertical tab, form feed. -/
def pyIsSpace (c : Char) : Bool :=
  c.toNat = 32 || c.toNat = 9 || c.toNat = 10 || c.toNat = 13 || c.toNat = 11 || c.toNat = 12

/-- Drop leading whitespace (left part of `str.strip()`). -/
def lstrip (l : PyStr) : PyStr := l.dropWhile pyIsSpace

/-- Drop trailing whitespace (right part of `str.strip()`). -/
def rstrip (l : PyStr) : PyStr := (l.reverse.dropWhile pyIsSpace).reverse

/-- Python `str.strip()`. -/
def pyStrip (l : PyStr) : PyStr := rstrip (lstrip l)

/-- Worker for `re.sub(r"\s+", " ", s)`: the flag records whether the
previous character was part of a whitespace run already replaced. -/
def collapseAux : Bool → PyStr → PyStr
  | _, [] => []
  | inRun, c :: rest =>
    if pyIsSpace c then
      if inRun then collapseAux true rest
      else ' ' :: collapseAux true rest
    else c :: collapseAux false rest

/-- Python `re.sub(r"\s+", " ", s)`: replace every maximal whitespace run by a
single space. -/
def collapseWs (l : PyStr) : PyStr := collapseAux false l

/-- ASCII uppercase of one character (Python `str.upper()` on ASCII). -/
def upperChar (c : Char) : Char :=
  if 97 ≤ c.toNat ∧ c.toNat ≤ 122 then Char.ofNat (c.toNat - 32) else c

/-- ASCII lowercase of one character (Python `str.lower()` on ASCII). -/
def lowerChar (c : Char) : Char :=
  if 65 ≤ c.toNat ∧ c.toNat ≤ 90 then Char.ofNat (c.toNat + 32) else c

/-- Python `str.upper()`. -/
def pyUpper (l : PyStr) : PyStr := l.map upperChar

/-- Python `str.lower()`. -/
def pyLower (l : PyStr) : PyStr := l.map lowerChar

/-- Python `re.sub(r"\.0$", "", s)`: strip one literal trailing ".0". -/
def stripDot0 (l : PyStr) : PyStr :=
  if ['.', '0'] <:+ l then l.take (l.length - 2) else l

instance (s l : PyStr) : Decidable (s <:+ l) :=
  decidable_of_iff (s.isSuffixOf l = true) (by
    constructor
    · intro h; exact List.isSuffixOf_iff_suffix.mp h
    · intro h; exact List.isSuffixOf_iff_suffix.mpr h)

/-- Python `str.zfill(5)` on a digit string: left-pad with zeros to width 5. -/
def zfill5 (l : PyStr) : PyStr := List.replicate (5 - l.length) '0' ++ l

/-- Decimal digit character for `d < 10`. -/
def digitChar (d : Nat) : Char := Char.ofNat (48 + d)

/-- Fuelled decimal rendering of a natural number, most significant digit
first; adequate whenever `n < 10 ^ fuel`. -/
def natReprFuel : Nat → Nat → PyStr
  | 0, _ => []
  | fuel + 1, n =>
    if n < 10 then [digitChar n]
    else natReprFuel fuel (n / 10) ++ [digitChar (n % 10)]

/-- Python `str(n)` for a natural number. -/
def natRepr (n : Nat) : PyStr := natReprFuel (n + 1) n

/-- Python `str(n)` for an integer. -/
def intRepr (n : Int) : PyStr :=
  if n < 0 then '-' :: natRepr n.natAbs else natRepr n.toNat

/-- A spreadsheet cell value, as discriminated by `safe_text`:
absent (`None`), float NaN, `int`, an integer-valued (non-NaN) `float`,
or a string. -/
inductive Cell where
  | none
  | nan
  | int (n : Int)
  | floatInt (n : Int)
  | str (s : PyStr)
deriving DecidableEq

/-- Source `safe_text`: convert any cell to a clean string; `None`/NaN become
empty, integers and integer-valued floats print without a ".0" suffix. -/
def safe_text : Cell → PyStr
  | .none => []
  | .nan => []
  | .int n => intRepr n
  | .floatInt n => intRepr n
  | .str s => s

/-- Source `clean_house`: `safe_text`, strip, drop a trailing ".0", collapse
whitespace runs. -/
def clean_house (x : Cell) : PyStr :=
  collapseWs (stripDot0 (pyStrip (safe_text x)))

/-- Source `clean_street`: `safe_text`, strip, uppercase, collapse whitespace
runs. -/
def clean_street (x : Cell) : PyStr :=
  collapseWs (pyUpper (pyStrip (safe_text x)))

/-- Python's `\d` digit class (ASCII) used by `re.sub(r"[^\d]", "", s)`. -/
def pyIsDigit (c : Char) : Bool := 48 ≤ c.toNat && c.toNat ≤ 57

/-- The two reassignments at the end of `clean_zip`: pad a 4-digit string
with a leading zero, then truncate a 5-or-longer string to 5 digits. -/
def zipAdjust (s : PyStr) : PyStr :=
  let s2 := if s.length = 4 then zfill5 s else s
  if 5 ≤ s2.length then s2.take 5 else s2

/-- Source `clean_zip`: `safe_text`, strip, keep digits only, pad a 4-digit
string with a leading zero, then truncate to the first 5 digits. -/
def clean_zip (x : Cell) : PyStr :=
  zipAdjust ((pyStrip (safe_text x)).filter pyIsDigit)

/-! ### Strip lemmas.  `noLead l` / `noTrail l` say the string has no
leading / trailing Python whitespace. -/
def noLead (l : PyStr) : Prop := ∀ c ∈ l.head?, pyIsSpace c = false

def noTrail (l : PyStr) : Prop := ∀ c ∈ l.getLast?, pyIsSpace c = false

/-! ### Specification-modelled normalizer variants (for the refinement
claims), following the spec's wording: same conversion, with the spec's
stated operation order. -/
/-- Spec wording of `clean_zip` (claim C3): convert to text, strip every
non-digit, pad an exactly-4-digit string to 5 with a leading zero,
truncate 5 or more digits to the first 5. -/
def spec_clean_zip (x : Cell) : PyStr :=
  let d := (safe_text x).filter pyIsDigit
  if d.length = 4 then zfill5 d
  else if 5 ≤ d.length then d.take 5
  else d

/-- Spec wording of `clean_house` (claim C7): convert to text, trim,
collapse internal whitespace runs, then strip one literal trailing ".0". -/
def spec_clean_house (x : Cell) : PyStr :=
  stripDot0 (collapseWs (pyStrip (safe_text x)))

/-! ### Column Resolver -/
/-- Index (counting from the character after the opening parenthesis) of
the first ')' occurring before any newline, if any: the extent of a
non-greedy `\(.*?\)` match, where `.` does not match a newline. -/
def findClose : PyStr → Option Nat
  | [] => Option.none
  | c :: rest =>
    if c = ')' then some 0
    else if c = '\n' then Option.none
    else (findClose rest).map (· + 1)

/-- Fuelled worker for `re.sub(r"\(.*?\)", "", s)`: at each '(' that has
a matching ')' on the same line, drop through that ')'; otherwise keep
the character.  Each step consumes at least one character, so fuel equal
to the input length suffices. -/
def removeParensFuel : Nat → PyStr → PyStr
  | 0, l => l
  | _ + 1, [] => []
  | fuel + 1, c :: rest =>
    if c = '(' then
      match findClose rest with
      | some k => removeParensFuel fuel (rest.drop (k + 1))
      | Option.none => c :: removeParensFuel fuel rest
    else c :: removeParensFuel fuel rest

/-- Python `re.sub(r"\(.*?\)", "", s)`: remove every non-greedy parenthesized
group. -/
def removeParens (l : PyStr) : PyStr := removeParensFuel l.length l

/-- Source `norm_keep_symbols`: collapse whitespace, strip, lowercase, drop
parenthesized groups, replace '/' with ' '. -/
def norm_keep_symbols (s : PyStr) : PyStr :=
  (removeParens (pyLower (pyStrip (collapseWs s)))).map
    (fun c => if c = '/' then ' ' else c)

/-- The normalized form used by the exact-match pass:
`col.strip().lower()`. -/
def normKey (s : PyStr) : PyStr := pyLower (pyStrip s)

/-- Source `find_exact`: first column whose trimmed, case-folded form equals the
trimmed, case-folded form of some name. -/
def find_exact (cols names : List PyStr) : Option PyStr :=
  cols.find? fun col => (names.map normKey).contains (normKey col)

/-- An abstract model of `re.search`: `m pat text` says pattern `pat`
matches somewhere in `text`. -/
abbrev Matcher := PyStr → PyStr → Bool

/-- Index of the first list element satisfying `p` (the `enumerate` loop
with `break`). -/
def firstIdx (p : α → Bool) : List α → Option Nat
  | [] => Option.none
  | a :: l => if p a then some 0 else (firstIdx p l).map (· + 1)

/-- A candidate key in `find_regex`: (pattern priority rank, negative
normalized-header length), compared lexicographically like a Python
tuple. -/
abbrev RKey := Nat × Int

/-- Python tuple `<` on `(rank, -len)` keys. -/
def keyLt (a b : RKey) : Bool :=
  a.1 < b.1 || (a.1 = b.1 && a.2 < b.2)

/-- The key a column would contribute in `find_regex`: rank of the first
matching pattern (the loop breaks there), with the negated length of the
normalized header. -/
def colKey (m : Matcher) (pats : List PyStr) (col : PyStr) : Option RKey :=
  (firstIdx (fun pat => m pat (norm_keep_symbols col)) pats).map
    (fun r => (r, -((norm_keep_symbols col).length : Int)))

/-- One iteration of the `find_regex` column loop: keep the strictly
smaller key (ties keep the earlier column). -/
def rrStep (m : Matcher) (pats : List PyStr)
    (best : Option (RKey × PyStr)) (col : PyStr) : Option (RKey × PyStr) :=
  match colKey m pats col with
  | Option.none => best
  | some key =>
    match best with
    | Option.none => some (key, col)
    | some b => if keyLt key b.1 then some (key, col) else some b

/-- Source `find_regex`: scan all columns, keeping the column whose
(first-matching-rank, -normalized-length) key is smallest. -/
def find_regex (m : Matcher) (cols pats : List PyStr) : Option PyStr :=
  (cols.foldl (rrStep m pats) Option.none).map Prod.snd

/-- The three logical fields resolved from the spreadsheet headers. -/
inductive LField where
  | house
  | street
  | zip
deriving DecidableEq

/-- Source `EXACT_NAMES`: the Header Alias Table. -/
def EXACT_NAMES : LField → List PyStr
  | .house =>
    ["HOUSE #", "HOUSE#", "HOUSE NUMBER", "HOUSE NO", "HOUSE NO.",
     "House Number (ex: 3514) / 门牌号码", "House Number / 门牌号码",
     "House Number / 门牌号"].map String.data
  | .street =>
    ["STREET NAME", "STREET", "Street Name (ex: 19Th Ave) / 街道名称"].map String.data
  | .zip =>
    ["ZIP CODE", "Zip Code (Ex: 11204) / 邮政编码"].map String.data

/-- Source `REQUIRED_PATTERNS`: the Header Pattern Table (pattern source text;
matching behaviour is abstracted by a `Matcher`). -/
def REQUIRED_PATTERNS : LField → List PyStr
  | .house =>
    ["\\bhouse\\s*number\\b", "\\bhouse\\s*#(?:\\s|$)", "\\bhouse\\s*no\\.?\\b",
     "门牌(号|号码)"].map String.data
  | .street =>
    ["\\bstreet\\s*name\\b", "\\bstreet\\b", "\\bst\\.?\\b", "街道名称",
     "街道"].map String.data
  | .zip =>
    ["\\bzip\\s*code\\b", "\\bzip\\b", "\\bpostal\\s*code\\b", "邮政编码"].map String.data

/-- Python `or` on optional strings: an empty string is falsy, so it is
passed over just like `None`. -/
def pyOr (a b : Option PyStr) : Option PyStr :=
  match a with
  | Option.none => b
  | some s => if s = [] then b else some s

/-- Column detection for one logical field:
`find_exact(...) or find_regex(...)`. -/
def resolveColumn (m : Matcher) (fld : LField) (cols : List PyStr) : Option PyStr :=
  pyOr (find_exact cols (EXACT_NAMES fld)) (find_regex m cols (REQUIRED_PATTERNS fld))

/-! ### Per-row processing (the main loops of `script2.py` and
`script.py`) -/
/-- The six output district columns (`OUTPUT_COLS` / the `site_data`
keys), in dict insertion order: AD, ED, Cong D, SD, Council D, JD. -/
inductive DField where
  | ad
  | ed
  | cong
  | sd
  | council
  | jd
deriving DecidableEq

/-- The `site_data.items()` iteration order. -/
def FIELD_ORDER : List DField := [.ad, .ed, .cong, .sd, .council, .jd]

/-- The six texts scraped from the results page via `safe_get_text`
(empty string when the element is absent or blank). -/
structure Scraped where
  ad : PyStr
  ed : PyStr
  cong : PyStr
  sd : PyStr
  council : PyStr
  jd : PyStr
deriving DecidableEq

def Scraped.get : Scraped → DField → PyStr
  | s, .ad => s.ad
  | s, .ed => s.ed
  | s, .cong => s.cong
  | s, .sd => s.sd
  | s, .council => s.council
  | s, .jd => s.jd

/-- The `site_data` dict: each scraped text as-is, except the election
district, which is `.split("/")[0]` — the prefix before the first '/'. -/
def site_data (s : Scraped) : Scraped :=
  { s with ed := s.ed.takeWhile (fun c => c != '/') }

/-- Check `all(not v for v in site_data.values())`. -/
def Scraped.allEmpty (s : Scraped) : Bool :=
  s.ad.isEmpty && s.ed.isEmpty && s.cong.isEmpty && s.sd.isEmpty &&
    s.council.isEmpty && s.jd.isEmpty

/-- One spreadsheet row: the three resolved input cells and the six
output-column cells. -/
structure Row where
  house : Cell
  street : Cell
  zip : Cell
  ad : Cell
  ed : Cell
  cong : Cell
  sd : Cell
  council : Cell
  jd : Cell

def Row.getD : Row → DField → Cell
  | r, .ad => r.ad
  | r, .ed => r.ed
  | r, .cong => r.cong
  | r, .sd => r.sd
  | r, .council => r.council
  | r, .jd => r.jd

/-- An Invalid Row Entry: the cleaned address values plus a reason. -/
structure Entry where
  house : PyStr
  street : PyStr
  zip : PyStr
  reason : PyStr
deriving DecidableEq

/-- What one loop iteration does to shared state: the output-field
mutations applied to the row, and the invalid-row entries appended. -/
structure RowResult where
  muts : List (DField × PyStr)
  entries : List Entry
deriving DecidableEq

/-- The external world for one row: either an exception is raised during
navigation/scraping (`fail`), or the page yields an error-message text
(possibly blank) and six scraped texts. -/
inductive Env where
  | fail (msg : PyStr)
  | page (errMsg : PyStr) (scraped : Scraped)

/-- The `script2.py` update loop: for each output field in dict order,
compare `safe_text(row.get(field, "")).strip()` with the site value and
record a mutation on mismatch. -/
def mutations (row : Row) (sd : Scraped) : List (DField × PyStr) :=
  FIELD_ORDER.filterMap fun f =>
    let ev := pyStrip (safe_text (row.getD f))
    let sv := sd.get f
    if ev ≠ sv then some (f, sv) else Option.none

/-- One iteration of the `script2.py` row loop: skip when a cleaned
address part is blank; record an entry on exception, on a site-reported
invalid address, or on an all-empty result; otherwise apply the field
mutations. -/
def process_row (row : Row) (env : Env) : RowResult :=
  let h := clean_house row.house
  let s := clean_street row.street
  let z := clean_zip row.zip
  if h = [] ∨ s = [] ∨ z = [] then ⟨[], []⟩
  else
    match env with
    | .fail msg => ⟨[], [⟨h, s, z, "Script error: ".data ++ msg⟩]⟩
    | .page errMsg scraped =>
      if pyStrip errMsg ≠ [] then ⟨[], [⟨h, s, z, pyStrip errMsg⟩]⟩
      else
        if (site_data scraped).allEmpty then
          ⟨[], [⟨h, s, z, "No polling info returned".data⟩]⟩
        else ⟨mutations row (site_data scraped), []⟩

/-- Python `str()` on a cell (`script.py` uses bare `str`, so `None`
prints as "None" and float NaN as "nan"; an integer-valued float keeps
its ".0"). -/
def pyStr : Cell → PyStr
  | .none => "None".data
  | .nan => "nan".data
  | .int n => intRepr n
  | .floatInt n => intRepr n ++ ".0".data
  | .str s => s

/-- Pandas `pd.notna`. -/
def notna : Cell → Bool
  | .none => false
  | .nan => false
  | _ => true

/-- Python `str.zfill(n)`: left-pad with zeros to width `n`, after any
sign character. -/
def pyZfill (n : Nat) : PyStr → PyStr
  | [] => List.replicate n '0'
  | c :: rest =>
    if c = '+' ∨ c = '-' then c :: (List.replicate (n - (rest.length + 1)) '0' ++ rest)
    else List.replicate (n - (rest.length + 1)) '0' ++ c :: rest

/-- The `script.py` update loop: the existing value is
`str(row[field]).zfill(len(site_val))` when the cell is not NA, else "". -/
def mutations_v1 (row : Row) (sd : Scraped) : List (DField × PyStr) :=
  FIELD_ORDER.filterMap fun f =>
    let sv := sd.get f
    let ev := if notna (row.getD f) then pyZfill sv.length (pyStr (row.getD f)) else []
    if ev ≠ sv then some (f, sv) else Option.none

/-- One iteration of the `script.py` row loop (raw `str(...).strip()`
cleaning, same outcome structure). -/
def process_row_v1 (row : Row) (env : Env) : RowResult :=
  let h := pyStrip (pyStr row.house)
  let s := pyStrip (pyStr row.street)
  let z := pyStrip (pyStr row.zip)
  if h = [] ∨ s = [] ∨ z = [] then ⟨[], []⟩
  else
    match env with
    | .fail msg => ⟨[], [⟨h, s, z, "Script error: ".data ++ msg⟩]⟩
    | .page errMsg scraped =>
      if pyStrip errMsg ≠ [] then ⟨[], [⟨h, s, z, pyStrip errMsg⟩]⟩
      else
        if (site_data scraped).allEmpty then
          ⟨[], [⟨h, s, z, "No polling info returned".data⟩]⟩
        else ⟨mutations_v1 row (site_data scraped), []⟩

/-! ### Output-path selection (claim C8) -/
/-- Value of a most-significant-first decimal digit string; inverse of
`natRepr`, used to prove it injective. -/
def natOfDigits (l : PyStr) : Nat := l.foldl (fun a c => a * 10 + (c.toNat - 48)) 0

/-- The k-th output path candidate for a stem (the input base name with
the fixed suffix, "_with_districts" in `script2.py` and "_corrected" in
`script.py`): the plain name first, then "(1)", "(2)", ... variants. -/
def candidate (stem : PyStr) : Nat → PyStr
  | 0 => stem ++ ".xlsx".data
  | Nat.succ i => stem ++ '(' :: (natRepr (i + 1) ++ ')' :: ".xlsx".data)

/-- The `while os.path.exists(output_path)` loop from counter `i` with
the given fuel (each iteration tries the next "(i)" variant). -/
def searchFrom (existing : List PyStr) (stem : PyStr) : Nat → Nat → PyStr
  | i, 0 => candidate stem i
  | i, fuel + 1 =>
    if candidate stem i ∈ existing then searchFrom existing stem (i + 1) fuel
    else candidate stem i

/-- Output-path selection: the plain suffixed name if it does not exist,
otherwise the loop over "(1)", "(2)", ... variants (fuel
`existing.length + 1` provably suffices, so this equals the unbounded
`while` loop). -/
def output_path (existing : List PyStr) (stem : PyStr) : PyStr :=
  if candidate stem 0 ∈ existing then searchFrom existing stem 1 (existing.length + 1)
  else candidate stem 0

/-! ## Theorems -/

/-! ### Character-level lemmas -/
theorem toNat_ofNat_of_lt {n : Nat} (h : n < 55296) : (Char.ofNat n).toNat = n := by
  unfold Char.ofNat
  rw [dif_pos (Or.inl h)]
  rfl

theorem pyIsSpace_upperChar (c : Char) : pyIsSpace (upperChar c) = pyIsSpace c := by
  unfold upperChar
  split
  · next h =>
    have h32 : c.toNat - 32 < 55296 := by omega
    have h1 : pyIsSpace (Char.ofNat (c.toNat - 32)) = false := by
      simp only [pyIsSpace, toNat_ofNat_of_lt h32, Bool.or_eq_false_iff, decide_eq_false_iff_not]
      omega
    have h2 : pyIsSpace c = false := by
      simp only [pyIsSpace, Bool.or_eq_false_iff, decide_eq_false_iff_not]
      omega
    rw [h1, h2]
  · rfl

theorem upperChar_upperChar (c : Char) : upperChar (upperChar c) = upperChar c := by
  by_cases h : 97 ≤ c.toNat ∧ c.toNat ≤ 122
  · have h32 : c.toNat - 32 < 55296 := by omega
    have e1 : upperChar c = Char.ofNat (c.toNat - 32) := if_pos h
    rw [e1]
    unfold upperChar
    rw [toNat_ofNat_of_lt h32, if_neg (by omega)]
  · unfold upperChar
    rw [if_neg h, if_neg h]

theorem pyIsSpace_of_pyIsDigit {c : Char} (h : pyIsDigit c = true) :
    pyIsSpace c = false := by
  simp only [pyIsDigit, Bool.and_eq_true, decide_eq_true_eq] at h
  simp only [pyIsSpace, Bool.or_eq_false_iff, decide_eq_false_iff_not]
  omega

theorem noLead_dropWhile (l : PyStr) : noLead (l.dropWhile pyIsSpace) := by
  induction l with
  | nil => intro c hc; simp at hc
  | cons a t ih =>
    by_cases h : pyIsSpace a
    · rw [List.dropWhile_cons_of_pos h]; exact ih
    · rw [List.dropWhile_cons_of_neg h]
      intro c hc
      simp only [List.head?_cons, Option.mem_def, Option.some.injEq] at hc
      subst hc
      exact Bool.eq_false_iff.mpr h

theorem noLead_lstrip (l : PyStr) : noLead (lstrip l) := noLead_dropWhile l

theorem noTrail_rstrip (l : PyStr) : noTrail (rstrip l) := by
  intro c hc
  rw [rstrip, List.getLast?_reverse] at hc
  exact noLead_dropWhile l.reverse c hc

theorem lstrip_of_noLead {l : PyStr} (h : noLead l) : lstrip l = l := by
  cases l with
  | nil => rfl
  | cons a t =>
    have : pyIsSpace a = false := h a (by simp)
    rw [lstrip, List.dropWhile_cons_of_neg (by simp [this])]

theorem rstrip_of_noTrail {l : PyStr} (h : noTrail l) : rstrip l = l := by
  have hl : noLead l.reverse := by
    intro c hc
    rw [List.head?_reverse] at hc
    exact h c hc
  have h3 : List.dropWhile pyIsSpace l.reverse = l.reverse := lstrip_of_noLead hl
  rw [rstrip, h3, List.reverse_reverse]

theorem noLead_rstrip_of_noLead {l : PyStr} (h : noLead l) : noLead (rstrip l) := by
  intro c hc
  rcases List.head?_eq_some_iff.mp hc with ⟨t, ht⟩
  have hpre : rstrip l <+: l := by
    rw [rstrip]
    refine ⟨(l.reverse.takeWhile pyIsSpace).reverse, ?_⟩
    rw [← List.reverse_append, List.takeWhile_append_dropWhile, List.reverse_reverse]
  rcases hpre with ⟨s, hs⟩
  apply h
  rw [← hs, ht]
  simp

theorem noLead_pyStrip (l : PyStr) : noLead (pyStrip l) :=
  noLead_rstrip_of_noLead (noLead_lstrip l)

theorem noTrail_pyStrip (l : PyStr) : noTrail (pyStrip l) := noTrail_rstrip (lstrip l)

theorem pyStrip_of_noLead_noTrail {l : PyStr} (h1 : noLead l) (h2 : noTrail l) :
    pyStrip l = l := by
  rw [pyStrip, lstrip_of_noLead h1, rstrip_of_noTrail h2]

/-! ### Whitespace-collapsing lemmas -/
theorem collapseAux_nil (b : Bool) : collapseAux b [] = [] := rfl

theorem collapseAux_nonspace {c : Char} (h : pyIsSpace c = false) (b : Bool) (rest : PyStr) :
    collapseAux b (c :: rest) = c :: collapseAux false rest := by
  simp [collapseAux, h]

theorem collapseAux_space_false {c : Char} (h : pyIsSpace c = true) (rest : PyStr) :
    collapseAux false (c :: rest) = ' ' :: collapseAux true rest := by
  simp [collapseAux, h]

theorem collapseAux_space_true {c : Char} (h : pyIsSpace c = true) (rest : PyStr) :
    collapseAux true (c :: rest) = collapseAux true rest := by
  simp [collapseAux, h]

theorem collapseAux_flag_of_noLead {v : PyStr} (h : noLead v) (b : Bool) :
    collapseAux b v = collapseAux false v := by
  cases v with
  | nil => rfl
  | cons c rest =>
    have hc : pyIsSpace c = false := h c (by simp)
    rw [collapseAux_nonspace hc, collapseAux_nonspace hc]

theorem collapseAux_append_of_noLead {v : PyStr} (h : noLead v) :
    ∀ (u : PyStr) (b : Bool),
      collapseAux b (u ++ v) = collapseAux b u ++ collapseAux false v := by
  intro u
  induction u with
  | nil =>
    intro b
    rw [List.nil_append, collapseAux_nil, List.nil_append]
    exact collapseAux_flag_of_noLead h b
  | cons c u' ih =>
    intro b
    rw [List.cons_append]
    cases hc : pyIsSpace c
    · rw [collapseAux_nonspace hc, collapseAux_nonspace hc, ih false, List.cons_append]
    · cases b
      · rw [collapseAux_space_false hc, collapseAux_space_false hc, ih true, List.cons_append]
      · rw [collapseAux_space_true hc, collapseAux_space_true hc, ih true]

theorem noLead_collapseAux_true (l : PyStr) : noLead (collapseAux true l) := by
  induction l with
  | nil => intro c hc; simp [collapseAux_nil] at hc
  | cons a rest ih =>
    cases ha : pyIsSpace a
    · rw [collapseAux_nonspace ha]
      intro c hc
      simp only [List.head?_cons, Option.mem_def, Option.some.injEq] at hc
      subst hc; exact ha
    · rw [collapseAux_space_true ha]; exact ih

theorem collapseAux_false_ne_nil {l : PyStr} (h : l ≠ []) : collapseAux false l ≠ [] := by
  cases l with
  | nil => exact absurd rfl h
  | cons a rest =>
    cases ha : pyIsSpace a
    · rw [collapseAux_nonspace ha]; simp
    · rw [collapseAux_space_false ha]; simp

theorem collapseAux_idem : ∀ (l : PyStr) (b : Bool),
    collapseAux false (collapseAux b l) = collapseAux b l := by
  intro l
  induction l with
  | nil => intro b; rw [collapseAux_nil, collapseAux_nil]
  | cons c rest ih =>
    intro b
    cases hc : pyIsSpace c
    · rw [collapseAux_nonspace hc b rest,
        collapseAux_nonspace hc false (collapseAux false rest), ih false]
    · cases b
      · rw [collapseAux_space_false hc rest,
          collapseAux_space_false (show pyIsSpace ' ' = true by decide) (collapseAux true rest),
          collapseAux_flag_of_noLead (noLead_collapseAux_true rest) true, ih true]
      · rw [collapseAux_space_true hc, ih true]

theorem noLead_collapseWs {l : PyStr} (h : noLead l) : noLead (collapseWs l) := by
  cases l with
  | nil => intro c hc; simp [collapseWs, collapseAux_nil] at hc
  | cons a rest =>
    have ha : pyIsSpace a = false := h a (by simp)
    rw [collapseWs, collapseAux_nonspace ha]
    intro c hc
    simp only [List.head?_cons, Option.mem_def, Option.some.injEq] at hc
    subst hc; exact ha

theorem noTrail_collapseWs {l : PyStr} (h : noTrail l) : noTrail (collapseWs l) := by
  cases hr : l.reverse with
  | nil =>
    have : l = [] := by
      have := congrArg List.reverse hr
      rwa [List.reverse_reverse] at this
    subst this
    intro c hc; simp [collapseWs, collapseAux_nil] at hc
  | cons c t =>
    have hl : l = t.reverse ++ [c] := by
      have := congrArg List.reverse hr
      rwa [List.reverse_reverse, List.reverse_cons] at this
    have hc : pyIsSpace c = false := by
      apply h
      rw [hl, List.getLast?_concat]
      rfl
    have hone : noLead [c] := by
      intro d hd
      simp only [List.head?_cons, Option.mem_def, Option.some.injEq] at hd
      subst hd; exact hc
    rw [collapseWs, hl, collapseAux_append_of_noLead hone, collapseAux_nonspace hc,
      collapseAux_nil]
    intro d hd
    rw [List.getLast?_concat] at hd
    simp only [Option.mem_def, Option.some.injEq] at hd
    subst hd; exact hc

theorem map_collapseAux {f : Char → Char} (hf : ∀ c, pyIsSpace (f c) = pyIsSpace c)
    (hs : f ' ' = ' ') : ∀ (l : PyStr) (b : Bool),
      (collapseAux b l).map f = collapseAux b (l.map f) := by
  intro l
  induction l with
  | nil => intro b; rw [collapseAux_nil, List.map_nil, collapseAux_nil]
  | cons c rest ih =>
    intro b
    rw [List.map_cons]
    cases hc : pyIsSpace c
    · have hfc : pyIsSpace (f c) = false := by rw [hf c, hc]
      rw [collapseAux_nonspace hc, collapseAux_nonspace hfc, List.map_cons, ih false]
    · have hfc : pyIsSpace (f c) = true := by rw [hf c, hc]
      cases b
      · rw [collapseAux_space_false hc, collapseAux_space_false hfc, List.map_cons, ih true, hs]
      · rw [collapseAux_space_true hc, collapseAux_space_true hfc, ih true]

/-! ### Trailing ".0" lemmas -/
theorem stripDot0_append_dot0 (u : PyStr) : stripDot0 (u ++ ['.', '0']) = u := by
  rw [stripDot0, if_pos ⟨u, rfl⟩, List.length_append]
  have h2 : (['.', '0'] : PyStr).length = 2 := rfl
  rw [h2]
  have h3 : u.length + 2 - 2 = u.length := by omega
  rw [h3, List.take_left]

theorem stripDot0_of_not_suffix {l : PyStr} (h : ¬ ['.', '0'] <:+ l) : stripDot0 l = l := by
  rw [stripDot0, if_neg h]

theorem suffix_pair_append {a b : Char} (x : PyStr) :
    ['.', '0'] <:+ x ++ [a, b] ↔ a = '.' ∧ b = '0' := by
  constructor
  · rintro ⟨t, ht⟩
    have hlen : x.length = t.length := by
      have := congrArg List.length ht
      simp only [List.length_append, List.length_cons, List.length_nil] at this
      omega
    have hd1 : ([a, b] : PyStr) = ['.', '0'] := by
      have e := congrArg (List.drop x.length) ht
      rw [List.drop_left, hlen, List.drop_left] at e
      exact e.symm
    simp only [List.cons.injEq, and_true] at hd1
    exact hd1
  · rintro ⟨rfl, rfl⟩
    exact ⟨x, rfl⟩

theorem getLast?_collapseAux_space : ∀ (l : PyStr) (b : Bool) (c : Char),
    l.getLast? = some c → pyIsSpace c = true →
    collapseAux b l = [] ∨ (collapseAux b l).getLast? = some ' ' := by
  intro l
  induction l with
  | nil => intro b c hc _; simp at hc
  | cons a rest ih =>
    intro b c hc hsp
    cases rest with
    | nil =>
      simp only [List.getLast?_singleton, Option.some.injEq] at hc
      subst hc
      cases b
      · rw [collapseAux_space_false hsp, collapseAux_nil]
        right; rfl
      · rw [collapseAux_space_true hsp, collapseAux_nil]
        left; rfl
    | cons a2 rest2 =>
      rw [List.getLast?_cons_cons] at hc
      cases ha : pyIsSpace a
      · rw [collapseAux_nonspace ha]
        rcases ih false c hc hsp with h0 | hlast
        · exact absurd h0 (collapseAux_false_ne_nil (by simp))
        · right
          rcases hX : collapseAux false (a2 :: rest2) with _ | ⟨x, xs⟩
          · exact absurd hX (collapseAux_false_ne_nil (by simp))
          · rw [hX] at hlast
            rw [List.getLast?_cons_cons, hlast]
      · cases b
        · rw [collapseAux_space_false ha]
          right
          rcases ih true c hc hsp with h0 | hlast
          · rw [h0]; rfl
          · rcases hX : collapseAux true (a2 :: rest2) with _ | ⟨x, xs⟩
            · rfl
            · rw [hX] at hlast
              rw [List.getLast?_cons_cons, hlast]
        · rw [collapseAux_space_true ha]
          exact ih true c hc hsp

theorem not_suffix_collapseWs {l : PyStr} (hT : noTrail l) (h : ¬ ['.', '0'] <:+ l) :
    ¬ ['.', '0'] <:+ collapseWs l := by
  cases hr : l.reverse with
  | nil =>
    have hl : l = [] := by
      have := congrArg List.reverse hr
      rwa [List.reverse_reverse] at this
    subst hl
    intro hsuf
    rw [show collapseWs ([] : PyStr) = [] from rfl] at hsuf
    have hle := List.IsSuffix.length_le hsuf
    simp only [List.length_cons, List.length_nil] at hle
    omega
  | cons c1 t1 =>
    have hl : l = t1.reverse ++ [c1] := by
      have := congrArg List.reverse hr
      rwa [List.reverse_reverse, List.reverse_cons] at this
    have hc1 : pyIsSpace c1 = false := by
      apply hT
      rw [hl, List.getLast?_concat]
      rfl
    cases t1 with
    | nil =>
      rw [collapseWs, hl]
      rw [List.reverse_nil, List.nil_append, collapseAux_nonspace hc1, collapseAux_nil]
      intro hsuf
      have hle := List.IsSuffix.length_le hsuf
      simp only [List.length_cons, List.length_nil] at hle
      omega
    | cons c2 t2 =>
      have hl2 : l = t2.reverse ++ [c2, c1] := by
        rw [hl, List.reverse_cons, List.append_assoc]
        rfl
      cases hc2 : pyIsSpace c2
      · have hv : noLead [c2, c1] := by
          intro d hd
          simp only [List.head?_cons, Option.mem_def, Option.some.injEq] at hd
          subst hd; exact hc2
        rw [collapseWs, hl2, collapseAux_append_of_noLead hv,
          collapseAux_nonspace hc2, collapseAux_nonspace hc1, collapseAux_nil]
        rw [suffix_pair_append]
        rw [hl2, suffix_pair_append] at h
        exact h
      · have hv : noLead [c1] := by
          intro d hd
          simp only [List.head?_cons, Option.mem_def, Option.some.injEq] at hd
          subst hd; exact hc1
        have hassoc : l = (t2.reverse ++ [c2]) ++ [c1] := by
          rw [hl2, List.append_assoc]
          rfl
        rw [collapseWs, hassoc, collapseAux_append_of_noLead hv]
        have hX := getLast?_collapseAux_space (t2.reverse ++ [c2]) false c2
          (List.getLast?_concat _) hc2
        have hc1one : collapseAux false [c1] = [c1] := by
          rw [collapseAux_nonspace hc1, collapseAux_nil]
        rw [hc1one]
        rcases hX with h0 | hlast
        · rw [h0, List.nil_append]
          intro hsuf
          have hle := List.IsSuffix.length_le hsuf
          simp only [List.length_cons, List.length_nil] at hle
          omega
        · rcases List.getLast?_eq_some_iff.mp hlast with ⟨y, hy⟩
          rw [hy, List.append_assoc]
          have : ([' '] ++ [c1] : PyStr) = [' ', c1] := rfl
          rw [this, suffix_pair_append]
          rintro ⟨hdot, -⟩
          exact absurd hdot (by decide)

/-! ### zip-digit lemmas -/
theorem pyIsDigit_eq_false_of_space {c : Char} (h : pyIsSpace c = true) :
    pyIsDigit c = false := by
  cases hd : pyIsDigit c
  · rfl
  · rw [pyIsSpace_of_pyIsDigit hd] at h
    exact absurd h (by simp)

theorem filter_digit_dropWhile_space (l : PyStr) :
    (l.dropWhile pyIsSpace).filter pyIsDigit = l.filter pyIsDigit := by
  induction l with
  | nil => rfl
  | cons a t ih =>
    cases ha : pyIsSpace a
    · rw [List.dropWhile_cons_of_neg (by simp [ha])]
    · rw [List.dropWhile_cons_of_pos (by simp [ha]), ih,
        List.filter_cons_of_neg (by simp [pyIsDigit_eq_false_of_space ha])]

theorem filter_digit_pyStrip (l : PyStr) :
    (pyStrip l).filter pyIsDigit = l.filter pyIsDigit := by
  rw [pyStrip, rstrip, lstrip, List.filter_reverse, filter_digit_dropWhile_space,
    ← List.filter_reverse, List.reverse_reverse, filter_digit_dropWhile_space]

theorem length_zfill5 (s : PyStr) : (zfill5 s).length = (5 - s.length) + s.length := by
  simp [zfill5]

theorem zipAdjust_eq4 {s : PyStr} (h : s.length = 4) : zipAdjust s = zfill5 s := by
  have hlen : (zfill5 s).length = 5 := by rw [length_zfill5, h]
  simp only [zipAdjust, if_pos h, hlen]
  rw [if_pos (by omega), ← hlen, List.take_length]

theorem zipAdjust_ge5 {s : PyStr} (h4 : s.length ≠ 4) (h5 : 5 ≤ s.length) :
    zipAdjust s = s.take 5 := by
  simp only [zipAdjust, if_neg h4]
  rw [if_pos h5]

theorem zipAdjust_small {s : PyStr} (h : s.length ≤ 3) : zipAdjust s = s := by
  simp only [zipAdjust, if_neg (by omega : ¬ s.length = 4)]
  rw [if_neg (by omega)]

theorem zipAdjust_length (s : PyStr) :
    (zipAdjust s).length ≤ 5 ∧ (zipAdjust s).length ≠ 4 := by
  by_cases h4 : s.length = 4
  · rw [zipAdjust_eq4 h4, length_zfill5, h4]
    omega
  · by_cases h5 : 5 ≤ s.length
    · rw [zipAdjust_ge5 h4 h5, List.length_take]
      omega
    · rw [zipAdjust_small (by omega)]
      omega

theorem mem_zipAdjust {c : Char} {s : PyStr} (h : c ∈ zipAdjust s) : c = '0' ∨ c ∈ s := by
  by_cases h4 : s.length = 4
  · rw [zipAdjust_eq4 h4, zfill5] at h
    rcases List.mem_append.mp h with h1 | h2
    · exact Or.inl (List.eq_of_mem_replicate h1)
    · exact Or.inr h2
  · by_cases h5 : 5 ≤ s.length
    · rw [zipAdjust_ge5 h4 h5] at h
      exact Or.inr (List.take_subset 5 s h)
    · rw [zipAdjust_small (by omega)] at h
      exact Or.inr h

theorem clean_zip_all_digit (x : Cell) : ∀ c ∈ clean_zip x, pyIsDigit c = true := by
  intro c hc
  rcases mem_zipAdjust hc with h0 | hmem
  · subst h0; decide
  · exact (List.mem_filter.mp hmem).2

theorem noLead_noTrail_of_all_nonspace {l : PyStr}
    (h : ∀ c ∈ l, pyIsSpace c = false) : noLead l ∧ noTrail l := by
  constructor
  · intro c hc
    cases l with
    | nil => simp at hc
    | cons a t =>
      simp only [List.head?_cons, Option.mem_def, Option.some.injEq] at hc
      subst hc
      exact h a (by simp)
  · intro c hc
    rcases List.getLast?_eq_some_iff.mp hc with ⟨y, hy⟩
    exact h c (by rw [hy]; simp)

theorem pyStrip_of_all_digit {l : PyStr} (h : ∀ c ∈ l, pyIsDigit c = true) :
    pyStrip l = l := by
  have hns : ∀ c ∈ l, pyIsSpace c = false := fun c hc => pyIsSpace_of_pyIsDigit (h c hc)
  rcases noLead_noTrail_of_all_nonspace hns with ⟨h1, h2⟩
  exact pyStrip_of_noLead_noTrail h1 h2

/-! ### Uppercasing lemmas -/
theorem noLead_pyUpper {l : PyStr} (h : noLead l) : noLead (pyUpper l) := by
  intro c hc
  rw [pyUpper, List.head?_map] at hc
  rcases Option.map_eq_some'.mp hc with ⟨a, ha, hac⟩
  rw [← hac, pyIsSpace_upperChar]
  exact h a ha

theorem noTrail_pyUpper {l : PyStr} (h : noTrail l) : noTrail (pyUpper l) := by
  intro c hc
  rw [pyUpper, List.getLast?_map] at hc
  rcases Option.map_eq_some'.mp hc with ⟨a, ha, hac⟩
  rw [← hac, pyIsSpace_upperChar]
  exact h a ha

theorem pyUpper_pyUpper (l : PyStr) : pyUpper (pyUpper l) = pyUpper l := by
  rw [pyUpper, pyUpper, List.map_map]
  exact List.map_congr_left fun a _ => upperChar_upperChar a

/-! ### Claim theorems: value normalizers -/
/-- Claim C1 (amended): `clean_street` and `clean_zip` are idempotent —
re-applying either normalizer to its own output returns the output
unchanged.  (`clean_house` is not; see the counterexample.) -/
theorem street_zip_normalizers_idempotent :
    ∀ x : Cell,
      clean_street (Cell.str (clean_street x)) = clean_street x ∧
      clean_zip (Cell.str (clean_zip x)) = clean_zip x := by
  intro x
  constructor
  · show collapseWs (pyUpper (pyStrip (clean_street x))) = clean_street x
    have hL : noLead (clean_street x) :=
      noLead_collapseWs (noLead_pyUpper (noLead_pyStrip _))
    have hT : noTrail (clean_street x) :=
      noTrail_collapseWs (noTrail_pyUpper (noTrail_pyStrip _))
    rw [pyStrip_of_noLead_noTrail hL hT]
    have hupper : pyUpper (clean_street x) = clean_street x := by
      show (collapseAux false (pyUpper (pyStrip (safe_text x)))).map upperChar = _
      rw [map_collapseAux pyIsSpace_upperChar (by decide)]
      show collapseAux false (pyUpper (pyUpper (pyStrip (safe_text x)))) = _
      rw [pyUpper_pyUpper]
      rfl
    rw [hupper]
    show collapseAux false (collapseAux false _) = collapseAux false _
    rw [collapseAux_idem]
  · show zipAdjust ((pyStrip (clean_zip x)).filter pyIsDigit) = clean_zip x
    have hdig := clean_zip_all_digit x
    rw [pyStrip_of_all_digit hdig, List.filter_eq_self.mpr hdig]
    rcases zipAdjust_length ((pyStrip (safe_text x)).filter pyIsDigit) with ⟨h5, h4⟩
    have h5' : (clean_zip x).length ≤ 5 := h5
    have h4' : (clean_zip x).length ≠ 4 := h4
    by_cases hbig : (clean_zip x).length = 5
    · rw [zipAdjust_ge5 h4' (by omega), ← hbig, List.take_length]
    · rw [zipAdjust_small (by omega)]

/-- Claim C1 counterexample: `clean_house` is not idempotent — on input
".0.0" it returns ".0", and re-applying it to ".0" returns "". -/
theorem clean_house_not_idempotent :
    clean_house (Cell.str (clean_house (Cell.str ".0.0".data))) ≠
      clean_house (Cell.str ".0.0".data) := by decide

/-- Claim C3: `clean_zip` equals the spec's description (convert to text,
remove non-digits, left-pad exactly-4-digit strings to 5, truncate 5 or
more digits to the first 5), and the spec's examples hold:
`clean_zip "1120" = "01120"`, `clean_zip "112045678" = "11204"`,
`clean_zip "abc" = ""`. -/
theorem clean_zip_matches_spec :
    (∀ x : Cell, clean_zip x = spec_clean_zip x) ∧
    clean_zip (Cell.str "1120".data) = "01120".data ∧
    clean_zip (Cell.str "112045678".data) = "11204".data ∧
    clean_zip (Cell.str "abc".data) = "".data := by
  refine ⟨?_, by decide, by decide, by decide⟩
  intro x
  show zipAdjust ((pyStrip (safe_text x)).filter pyIsDigit) = _
  rw [filter_digit_pyStrip]
  simp only [spec_clean_zip]
  by_cases h4 : ((safe_text x).filter pyIsDigit).length = 4
  · rw [zipAdjust_eq4 h4, if_pos h4]
  · by_cases h5 : 5 ≤ ((safe_text x).filter pyIsDigit).length
    · rw [zipAdjust_ge5 h4 h5, if_neg h4, if_pos h5]
    · rw [zipAdjust_small (by omega), if_neg h4, if_neg h5]

/-- Claim C7: `clean_house` equals the spec's description (convert to text
with `safe_text`, trim, collapse internal whitespace runs to single
spaces, then strip one literal trailing ".0"), and the spec's examples
hold: `clean_house "1876.0" = "1876"` and `clean_house " 12   B " = "12 B"`. -/
theorem clean_house_matches_spec :
    (∀ x : Cell, clean_house x = spec_clean_house x) ∧
    clean_house (Cell.str "1876.0".data) = "1876".data ∧
    clean_house (Cell.str " 12   B ".data) = "12 B".data := by
  refine ⟨?_, by decide, by decide⟩
  intro x
  show collapseWs (stripDot0 (pyStrip (safe_text x))) =
    stripDot0 (collapseWs (pyStrip (safe_text x)))
  set t := pyStrip (safe_text x) with ht
  have hT : noTrail t := noTrail_pyStrip _
  by_cases h : ['.', '0'] <:+ t
  · rcases h with ⟨u, hu⟩
    rw [← hu, stripDot0_append_dot0]
    have hv : noLead ['.', '0'] := by
      intro c hc
      simp only [List.head?_cons, Option.mem_def, Option.some.injEq] at hc
      subst hc; decide
    rw [collapseWs, collapseWs, collapseAux_append_of_noLead hv]
    have h2 : collapseAux false ['.', '0'] = ['.', '0'] := by decide
    rw [h2, stripDot0_append_dot0]
  · rw [stripDot0_of_not_suffix h, stripDot0_of_not_suffix (not_suffix_collapseWs hT h)]

/-- Claim C10: every `clean_zip` output consists only of digit characters,
has length at most 5 and never exactly 4; inputs whose digit content is
at most 3 digits are returned as that digit string unchanged. -/
theorem clean_zip_shape :
    ∀ x : Cell,
      (∀ c ∈ clean_zip x, pyIsDigit c = true) ∧
      (clean_zip x).length ≤ 5 ∧
      (clean_zip x).length ≠ 4 ∧
      (((pyStrip (safe_text x)).filter pyIsDigit).length ≤ 3 →
        clean_zip x = (pyStrip (safe_text x)).filter pyIsDigit) := by
  intro x
  rcases zipAdjust_length ((pyStrip (safe_text x)).filter pyIsDigit) with ⟨h5, h4⟩
  refine ⟨clean_zip_all_digit x, h5, h4, ?_⟩
  intro hsmall
  show zipAdjust _ = _
  exact zipAdjust_small hsmall

/-- Witness for C10 at the concrete input "12": all parts evaluate. -/
theorem clean_zip_shape_witness :
    clean_zip (Cell.str "12".data) = (pyStrip (safe_text (Cell.str "12".data))).filter pyIsDigit :=
  (clean_zip_shape (Cell.str "12".data)).2.2.2 (by decide)

/-! ### Exact-match pass (claim C5) -/
theorem exactMatch_iff (names : List PyStr) (col : PyStr) :
    ((names.map normKey).contains (normKey col) = true) ↔
      ∃ n ∈ names, normKey n = normKey col := by
  simp [List.mem_map, eq_comm]

theorem alias_normKey_ne_nil (fld : LField) : ∀ n ∈ EXACT_NAMES fld, normKey n ≠ [] := by
  cases fld <;> decide

/-- Claim C5: the exact-match pass returns the first header (in traversal
order) whose trimmed, case-folded form equals that of some alias; and the
regex fallback is consulted exactly when the exact-match pass finds
nothing. -/
theorem find_exact_first_match_and_fallback :
    (∀ (cols names : List PyStr) (c : PyStr),
       find_exact cols names = some c ↔
         ((∃ n ∈ names, normKey n = normKey c) ∧
          ∃ pre post, cols = pre ++ c :: post ∧
            ∀ c' ∈ pre, ¬ ∃ n ∈ names, normKey n = normKey c')) ∧
    (∀ (m : Matcher) (fld : LField) (cols : List PyStr),
       (find_exact cols (EXACT_NAMES fld) = Option.none →
          resolveColumn m fld cols = find_regex m cols (REQUIRED_PATTERNS fld)) ∧
       (∀ c, find_exact cols (EXACT_NAMES fld) = some c →
          resolveColumn m fld cols = some c)) := by
  have hiff : ∀ (cols names : List PyStr) (c : PyStr),
      find_exact cols names = some c ↔
        ((∃ n ∈ names, normKey n = normKey c) ∧
         ∃ pre post, cols = pre ++ c :: post ∧
           ∀ c' ∈ pre, ¬ ∃ n ∈ names, normKey n = normKey c') := by
    intro cols names c
    rw [show find_exact cols names =
        cols.find? (fun col => (names.map normKey).contains (normKey col)) from rfl,
      List.find?_eq_some]
    constructor
    · rintro ⟨hc, pre, post, hsplit, hpre⟩
      refine ⟨(exactMatch_iff names c).mp hc, pre, post, hsplit, ?_⟩
      intro c' hc' hex
      have := hpre c' hc'
      rw [Bool.not_eq_true'] at this
      rw [(exactMatch_iff names c').mpr hex] at this
      exact absurd this (by simp)
    · rintro ⟨hc, pre, post, hsplit, hpre⟩
      refine ⟨(exactMatch_iff names c).mpr hc, pre, post, hsplit, ?_⟩
      intro c' hc'
      rw [Bool.not_eq_true']
      cases hmem : (names.map normKey).contains (normKey c')
      · rfl
      · exact absurd ((exactMatch_iff names c').mp hmem) (hpre c' hc')
  refine ⟨hiff, ?_⟩
  intro m fld cols
  constructor
  · intro hnone
    rw [resolveColumn, hnone]
    rfl
  · intro c hsome
    have hkey : ∃ n ∈ EXACT_NAMES fld, normKey n = normKey c :=
      ((hiff cols (EXACT_NAMES fld) c).mp hsome).1
    have hne : c ≠ [] := by
      rintro rfl
      rcases hkey with ⟨n, hn, hnk⟩
      exact alias_normKey_ne_nil fld n hn (by rw [hnk]; rfl)
    rw [resolveColumn, hsome]
    show pyOr (some c) _ = some c
    rw [pyOr, if_neg hne]

/-- Witness for C5: at a concrete header list with an exact "ZIP CODE"
match, the resolver returns it without consulting the regex pass. -/
theorem find_exact_first_match_and_fallback_witness :
    resolveColumn (fun _ _ => false) LField.zip ["foo".data, "ZIP CODE".data] =
      some "ZIP CODE".data :=
  (find_exact_first_match_and_fallback.2 (fun _ _ => false) LField.zip
    ["foo".data, "ZIP CODE".data]).2 "ZIP CODE".data (by decide)

/-! ### Regex fallback pass (claim C4) -/
theorem keyLt_irrefl (a : RKey) : keyLt a a = false := by
  simp [keyLt]

theorem keyLt_notLt_trans {a b c : RKey} (h1 : keyLt a b = false)
    (h2 : keyLt b c = false) : keyLt a c = false := by
  simp only [keyLt, Bool.or_eq_false_iff, Bool.and_eq_false_iff,
    decide_eq_false_iff_not] at *
  omega

theorem keyLt_false_of_lt_of_not_lt {kc kb k : RKey} (h1 : keyLt kc kb = true)
    (h2 : keyLt kc k = false) : keyLt kb k = false := by
  simp only [keyLt, Bool.or_eq_true, Bool.and_eq_true, Bool.or_eq_false_iff,
    Bool.and_eq_false_iff, decide_eq_true_eq, decide_eq_false_iff_not] at *
  omega

theorem keyLt_false_of_fst_le {j r : Nat} {v : Int} (h : r ≤ j) :
    keyLt (j, v) (r, v) = false := by
  simp only [keyLt, Bool.or_eq_false_iff, Bool.and_eq_false_iff,
    decide_eq_false_iff_not]
  omega

theorem firstIdx_eq_some {p : α → Bool} :
    ∀ {l : List α} {r : Nat}, firstIdx p l = some r →
      ∃ a, l.get? r = some a ∧ p a = true := by
  intro l
  induction l with
  | nil => intro r h; simp [firstIdx] at h
  | cons a t ih =>
    intro r h
    by_cases hp : p a
    · rw [firstIdx, if_pos hp] at h
      injection h with h
      exact ⟨a, by rw [← h]; rfl, hp⟩
    · rw [firstIdx, if_neg hp] at h
      rcases Option.map_eq_some'.mp h with ⟨r', hr', hrr⟩
      rcases ih hr' with ⟨b, hb, hpb⟩
      exact ⟨b, by rw [← hrr, List.get?_cons_succ]; exact hb, hpb⟩

theorem firstIdx_le_of_mem (p : α → Bool) :
    ∀ {l : List α} {j : Nat} {a : α}, l.get? j = some a → p a = true →
      ∃ r, firstIdx p l = some r ∧ r ≤ j := by
  intro l
  induction l with
  | nil => intro j a h; simp at h
  | cons b t ih =>
    intro j a hj hp
    by_cases hpb : p b
    · exact ⟨0, by rw [firstIdx, if_pos hpb], Nat.zero_le j⟩
    · cases j with
      | zero =>
        rw [List.get?_cons_zero] at hj
        injection hj with hj
        rw [hj] at hpb
        exact absurd hp hpb
      | succ j' =>
        rw [List.get?_cons_succ] at hj
        rcases ih hj hp with ⟨r', hr', hle⟩
        exact ⟨r' + 1, by rw [firstIdx, if_neg hpb, hr']; rfl, by omega⟩

theorem colKey_eq_some {m : Matcher} {pats : List PyStr} {col : PyStr} {k : RKey}
    (h : colKey m pats col = some k) :
    ∃ pat, pats.get? k.1 = some pat ∧ m pat (norm_keep_symbols col) = true ∧
      k.2 = -((norm_keep_symbols col).length : Int) := by
  rcases Option.map_eq_some'.mp h with ⟨r, hr, hk⟩
  rcases firstIdx_eq_some hr with ⟨pat, hpat, hm⟩
  rw [← hk]
  exact ⟨pat, hpat, hm, rfl⟩

theorem colKey_of_match {m : Matcher} {pats : List PyStr} {col : PyStr} {j : Nat}
    {pat : PyStr} (hj : pats.get? j = some pat)
    (hm : m pat (norm_keep_symbols col) = true) :
    ∃ k, colKey m pats col = some k ∧ k.1 ≤ j ∧
      k.2 = -((norm_keep_symbols col).length : Int) := by
  rcases firstIdx_le_of_mem (fun pat => m pat (norm_keep_symbols col)) hj hm with ⟨r, hr, hle⟩
  exact ⟨(r, -((norm_keep_symbols col).length : Int)), by rw [colKey, hr]; rfl, hle, rfl⟩

theorem rrStep_key_none {m : Matcher} {pats : List PyStr} {col : PyStr}
    (h : colKey m pats col = Option.none) (b : Option (RKey × PyStr)) :
    rrStep m pats b col = b := by
  simp only [rrStep, h]

theorem rrStep_key_some_none {m : Matcher} {pats : List PyStr} {col : PyStr} {kc : RKey}
    (h : colKey m pats col = some kc) :
    rrStep m pats Option.none col = some (kc, col) := by
  simp only [rrStep, h]

theorem rrStep_key_some_some {m : Matcher} {pats : List PyStr} {col : PyStr} {kc : RKey}
    (h : colKey m pats col = some kc) (kb : RKey) (cb : PyStr) :
    rrStep m pats (some (kb, cb)) col =
      if keyLt kc kb then some (kc, col) else some (kb, cb) := by
  simp only [rrStep, h]

theorem foldl_rrStep_none {m : Matcher} {pats : List PyStr} :
    ∀ (cols : List PyStr) (b : Option (RKey × PyStr)),
      cols.foldl (rrStep m pats) b = Option.none →
      b = Option.none ∧ ∀ col ∈ cols, colKey m pats col = Option.none := by
  intro cols
  induction cols with
  | nil =>
    intro b h
    exact ⟨h, by intro col hc; simp at hc⟩
  | cons col t ih =>
    intro b h
    rw [List.foldl_cons] at h
    rcases ih (rrStep m pats b col) h with ⟨hb1, ht⟩
    rcases hck : colKey m pats col with _ | kc
    · rw [rrStep_key_none hck] at hb1
      refine ⟨hb1, ?_⟩
      intro c' hc'
      rcases List.mem_cons.mp hc' with rfl | hmem
      · exact hck
      · exact ht c' hmem
    · exfalso
      cases b with
      | none => rw [rrStep_key_some_none hck] at hb1; exact Option.noConfusion hb1
      | some p =>
        rw [rrStep_key_some_some hck p.1 p.2] at hb1
        by_cases hlt : keyLt kc p.1 = true
        · rw [if_pos hlt] at hb1; exact Option.noConfusion hb1
        · rw [if_neg hlt] at hb1; exact Option.noConfusion hb1

theorem foldl_rrStep_some {m : Matcher} {pats : List PyStr} :
    ∀ (cols : List PyStr) (b : Option (RKey × PyStr)) (k : RKey) (c : PyStr),
      cols.foldl (rrStep m pats) b = some (k, c) →
      (b = some (k, c) ∨ (c ∈ cols ∧ colKey m pats c = some k)) ∧
      (∀ col' ∈ cols, ∀ k', colKey m pats col' = some k' → keyLt k' k = false) ∧
      (∀ kb cb, b = some (kb, cb) → keyLt kb k = false) := by
  intro cols
  induction cols with
  | nil =>
    intro b k c h
    rw [List.foldl_nil] at h
    refine ⟨Or.inl h, by intro col' hc'; simp at hc', ?_⟩
    intro kb cb hb
    rw [hb] at h
    injection h with h
    injection h with h1 _
    rw [h1]
    exact keyLt_irrefl k
  | cons col t ih =>
    intro b k c h
    rw [List.foldl_cons] at h
    rcases ih (rrStep m pats b col) k c h with ⟨hmem, hmin, hb1⟩
    rcases hck : colKey m pats col with _ | kc
    · rw [rrStep_key_none hck] at hmem hb1
      refine ⟨?_, ?_, hb1⟩
      · rcases hmem with h1 | ⟨h1, h2⟩
        · exact Or.inl h1
        · exact Or.inr ⟨List.mem_cons_of_mem col h1, h2⟩
      · intro c' hc' k' hk'
        rcases List.mem_cons.mp hc' with rfl | hm2
        · rw [hck] at hk'; exact Option.noConfusion hk'
        · exact hmin c' hm2 k' hk'
    · have hk_col : keyLt kc k = false := by
        cases b with
        | none =>
          exact hb1 kc col (by rw [rrStep_key_some_none hck])
        | some p =>
          obtain ⟨kb, cb⟩ := p
          by_cases hlt : keyLt kc kb = true
          · exact hb1 kc col (by rw [rrStep_key_some_some hck kb cb, if_pos hlt])
          · exact keyLt_notLt_trans (Bool.eq_false_iff.mpr hlt)
              (hb1 kb cb (by rw [rrStep_key_some_some hck kb cb, if_neg hlt]))
      refine ⟨?_, ?_, ?_⟩
      · rcases hmem with h1 | ⟨h1, h2⟩
        · cases b with
          | none =>
            rw [rrStep_key_some_none hck] at h1
            injection h1 with h1
            rw [Prod.mk.injEq] at h1
            obtain ⟨hk1, hc1⟩ := h1
            subst hc1
            exact Or.inr ⟨List.mem_cons_self col t, by rw [hck, hk1]⟩
          | some p =>
            obtain ⟨kb, cb⟩ := p
            rw [rrStep_key_some_some hck kb cb] at h1
            by_cases hlt : keyLt kc kb = true
            · rw [if_pos hlt] at h1
              injection h1 with h1
              rw [Prod.mk.injEq] at h1
              obtain ⟨hk1, hc1⟩ := h1
              subst hc1
              exact Or.inr ⟨List.mem_cons_self col t, by rw [hck, hk1]⟩
            · rw [if_neg hlt] at h1
              exact Or.inl h1
        · exact Or.inr ⟨List.mem_cons_of_mem col h1, h2⟩
      · intro c' hc' k' hk'
        rcases List.mem_cons.mp hc' with rfl | hm2
        · rw [hck] at hk'
          injection hk' with hk'
          rw [← hk']
          exact hk_col
        · exact hmin c' hm2 k' hk'
      · intro kb cb hb
        subst hb
        by_cases hlt : keyLt kc kb = true
        · have h3 : keyLt kc k = false :=
            hb1 kc col (by rw [rrStep_key_some_some hck kb cb, if_pos hlt])
          exact keyLt_false_of_lt_of_not_lt hlt h3
        · exact hb1 kb cb (by rw [rrStep_key_some_some hck kb cb, if_neg hlt])

/-- Claim C4: whenever some header matches some pattern, the regex fallback
returns a header, that header matches (its first matching pattern has
rank `r`), and the selected `(rank, -normalized-length)` key is
lexicographically least among all matching header/pattern pairs — a
header matching an earlier pattern always beats one matching only a later
pattern, and among equal ranks the longer normalized header wins. -/
theorem find_regex_min_key (m : Matcher) (cols pats : List PyStr)
    (hex : ∃ col ∈ cols, ∃ j pat, pats.get? j = some pat ∧
      m pat (norm_keep_symbols col) = true) :
    ∃ c, find_regex m cols pats = some c ∧ c ∈ cols ∧
      ∃ r pat, pats.get? r = some pat ∧ m pat (norm_keep_symbols c) = true ∧
        ∀ col' ∈ cols, ∀ j' pat', pats.get? j' = some pat' →
          m pat' (norm_keep_symbols col') = true →
          keyLt (j', -((norm_keep_symbols col').length : Int))
                (r, -((norm_keep_symbols c).length : Int)) = false := by
  rcases hex with ⟨col, hcol, j, pat, hj, hm⟩
  rcases colKey_of_match hj hm with ⟨k0, hk0, -, -⟩
  rcases hfold : cols.foldl (rrStep m pats) Option.none with _ | p
  · exfalso
    rcases foldl_rrStep_none cols Option.none hfold with ⟨-, hall⟩
    rw [hall col hcol] at hk0
    exact Option.noConfusion hk0
  · obtain ⟨k, c⟩ := p
    rcases foldl_rrStep_some cols Option.none k c hfold with ⟨hmem, hmin, -⟩
    rcases hmem with h1 | ⟨hcmem, hck⟩
    · exact Option.noConfusion h1
    · refine ⟨c, by rw [find_regex, hfold]; rfl, hcmem, ?_⟩
      rcases colKey_eq_some hck with ⟨pat0, hpat0, hm0, hsnd⟩
      refine ⟨k.1, pat0, hpat0, hm0, ?_⟩
      intro col' hc' j' pat' hj' hm'
      rcases colKey_of_match hj' hm' with ⟨k', hk', hfst, hsnd'⟩
      have hstep1 : keyLt (j', -((norm_keep_symbols col').length : Int)) k' = false := by
        obtain ⟨k1, k2⟩ := k'
        simp only at hsnd' hfst
        rw [hsnd']
        exact keyLt_false_of_fst_le hfst
      have hstep2 : keyLt k' k = false := hmin col' hc' k' hk'
      have hfinal := keyLt_notLt_trans hstep1 hstep2
      have hp1 : (k.1, -((norm_keep_symbols c).length : Int)) = k := by
        obtain ⟨k1, k2⟩ := k
        simp only at hsnd
        rw [hsnd]
      rw [hp1]
      exact hfinal

/-- Witness for C4: a concrete run where the later-listed header "bb"
matches the higher-priority pattern and is selected. -/
theorem find_regex_min_key_witness :
    ∃ c, find_regex (fun p c => p.isSuffixOf c) ["a".data, "bb".data]
        ["b".data, "a".data] = some c ∧
      c ∈ ["a".data, "bb".data] ∧
      ∃ r pat, (["b".data, "a".data] : List PyStr).get? r = some pat ∧
        (fun (p c : PyStr) => p.isSuffixOf c) pat (norm_keep_symbols c) = true ∧
        ∀ col' ∈ (["a".data, "bb".data] : List PyStr), ∀ j' pat',
          (["b".data, "a".data] : List PyStr).get? j' = some pat' →
          (fun (p c : PyStr) => p.isSuffixOf c) pat' (norm_keep_symbols col') = true →
          keyLt (j', -((norm_keep_symbols col').length : Int))
                (r, -((norm_keep_symbols c).length : Int)) = false :=
  find_regex_min_key (fun p c => p.isSuffixOf c) ["a".data, "bb".data]
    ["b".data, "a".data] ⟨"a".data, by decide, 1, "a".data, by decide, by decide⟩

/-! ### Row-outcome lemmas -/
theorem process_row_shape (row : Row) (env : Env) :
    (process_row row env).entries = [] ∨
    ((process_row row env).entries.length = 1 ∧ (process_row row env).muts = []) := by
  by_cases hb : clean_house row.house = [] ∨ clean_street row.street = [] ∨
      clean_zip row.zip = []
  · left
    simp only [process_row]
    rw [if_pos hb]
  · rcases env with msg | ⟨errMsg, scraped⟩
    · right
      simp only [process_row]
      rw [if_neg hb]
      exact ⟨rfl, rfl⟩
    · by_cases herr : pyStrip errMsg ≠ []
      · right
        simp only [process_row]
        rw [if_neg hb, if_pos herr]
        exact ⟨rfl, rfl⟩
      · by_cases hemp : (site_data scraped).allEmpty = true
        · right
          simp only [process_row]
          rw [if_neg hb, if_neg herr, if_pos hemp]
          exact ⟨rfl, rfl⟩
        · left
          simp only [process_row]
          rw [if_neg hb, if_neg herr, if_neg hemp]

theorem process_row_v1_shape (row : Row) (env : Env) :
    (process_row_v1 row env).entries = [] ∨
    ((process_row_v1 row env).entries.length = 1 ∧ (process_row_v1 row env).muts = []) := by
  by_cases hb : pyStrip (pyStr row.house) = [] ∨ pyStrip (pyStr row.street) = [] ∨
      pyStrip (pyStr row.zip) = []
  · left
    simp only [process_row_v1]
    rw [if_pos hb]
  · rcases env with msg | ⟨errMsg, scraped⟩
    · right
      simp only [process_row_v1]
      rw [if_neg hb]
      exact ⟨rfl, rfl⟩
    · by_cases herr : pyStrip errMsg ≠ []
      · right
        simp only [process_row_v1]
        rw [if_neg hb, if_pos herr]
        exact ⟨rfl, rfl⟩
      · by_cases hemp : (site_data scraped).allEmpty = true
        · right
          simp only [process_row_v1]
          rw [if_neg hb, if_neg herr, if_pos hemp]
          exact ⟨rfl, rfl⟩
        · left
          simp only [process_row_v1]
          rw [if_neg hb, if_neg herr, if_neg hemp]

/-- Claim C2: every processed row has exactly one of three outcomes — some
mutations and no invalid-row entry, no mutations and no entry, or no
mutations and exactly one entry — in both versions of the row loop. -/
theorem row_outcome_invariant :
    ∀ (row : Row) (env : Env),
      (((process_row row env).muts ≠ [] ∧ (process_row row env).entries = []) ∨
       ((process_row row env).muts = [] ∧ (process_row row env).entries = []) ∨
       ((process_row row env).muts = [] ∧ (process_row row env).entries.length = 1)) ∧
      (((process_row_v1 row env).muts ≠ [] ∧ (process_row_v1 row env).entries = []) ∨
       ((process_row_v1 row env).muts = [] ∧ (process_row_v1 row env).entries = []) ∨
       ((process_row_v1 row env).muts = [] ∧
         (process_row_v1 row env).entries.length = 1)) := by
  intro row env
  constructor
  · rcases process_row_shape row env with he | ⟨h1, hm⟩
    · by_cases hmut : (process_row row env).muts = []
      · exact Or.inr (Or.inl ⟨hmut, he⟩)
      · exact Or.inl ⟨hmut, he⟩
    · exact Or.inr (Or.inr ⟨hm, h1⟩)
  · rcases process_row_v1_shape row env with he | ⟨h1, hm⟩
    · by_cases hmut : (process_row_v1 row env).muts = []
      · exact Or.inr (Or.inl ⟨hmut, he⟩)
      · exact Or.inl ⟨hmut, he⟩
    · exact Or.inr (Or.inr ⟨hm, h1⟩)

/-- Claim C6: a row that reaches scraping and gets six empty scraped fields
produces exactly one invalid-row entry, whose reason is exactly
"No polling info returned", and no output-column mutation — in both
versions of the row loop. -/
theorem empty_results_entry :
    ∀ (row : Row) (errMsg : PyStr) (scraped : Scraped),
      scraped.ad = [] → scraped.ed = [] → scraped.cong = [] → scraped.sd = [] →
      scraped.council = [] → scraped.jd = [] → pyStrip errMsg = [] →
      (clean_house row.house ≠ [] → clean_street row.street ≠ [] →
       clean_zip row.zip ≠ [] →
        process_row row (Env.page errMsg scraped) =
          ⟨[], [⟨clean_house row.house, clean_street row.street, clean_zip row.zip,
                "No polling info returned".data⟩]⟩) ∧
      (pyStrip (pyStr row.house) ≠ [] → pyStrip (pyStr row.street) ≠ [] →
       pyStrip (pyStr row.zip) ≠ [] →
        process_row_v1 row (Env.page errMsg scraped) =
          ⟨[], [⟨pyStrip (pyStr row.house), pyStrip (pyStr row.street),
                pyStrip (pyStr row.zip), "No polling info returned".data⟩]⟩) := by
  intro row errMsg scraped ha he hc hs hco hj herr
  obtain ⟨a, e, c, s, co, j⟩ := scraped
  simp only at ha he hc hs hco hj
  subst ha; subst he; subst hc; subst hs; subst hco; subst hj
  have herr2 : ¬ pyStrip errMsg ≠ [] := by
    rw [herr]
    exact fun hcon => hcon rfl
  have hemp : (site_data ⟨[], [], [], [], [], []⟩).allEmpty = true := rfl
  constructor
  · intro h1 h2 h3
    have hb : ¬ (clean_house row.house = [] ∨ clean_street row.street = [] ∨
        clean_zip row.zip = []) := by
      rintro (hcon | hcon | hcon)
      exacts [h1 hcon, h2 hcon, h3 hcon]
    simp only [process_row]
    rw [if_neg hb, if_neg herr2, if_pos hemp]
  · intro h1 h2 h3
    have hb : ¬ (pyStrip (pyStr row.house) = [] ∨ pyStrip (pyStr row.street) = [] ∨
        pyStrip (pyStr row.zip) = []) := by
      rintro (hcon | hcon | hcon)
      exacts [h1 hcon, h2 hcon, h3 hcon]
    simp only [process_row_v1]
    rw [if_neg hb, if_neg herr2, if_pos hemp]

/-- Witness for C6 at a concrete row and page: the entry and its reason
evaluate. -/
theorem empty_results_entry_witness :
    process_row ⟨Cell.str "1".data, Cell.str "A".data, Cell.str "11204".data,
        Cell.nan, Cell.nan, Cell.nan, Cell.nan, Cell.nan, Cell.nan⟩
      (Env.page [] ⟨[], [], [], [], [], []⟩) =
      ⟨[], [⟨clean_house (Cell.str "1".data), clean_street (Cell.str "A".data),
            clean_zip (Cell.str "11204".data), "No polling info returned".data⟩]⟩ :=
  (empty_results_entry
    ⟨Cell.str "1".data, Cell.str "A".data, Cell.str "11204".data,
     Cell.nan, Cell.nan, Cell.nan, Cell.nan, Cell.nan, Cell.nan⟩
    [] ⟨[], [], [], [], [], []⟩ rfl rfl rfl rfl rfl rfl (by decide)).1
    (by decide) (by decide) (by decide)

/-! ### ED column lemmas (claim C9) -/
theorem get?_after_takeWhile (p : Char → Bool) :
    ∀ (l : PyStr), l.takeWhile p = l ∨
      ∃ d, l.get? (l.takeWhile p).length = some d ∧ p d = false := by
  intro l
  induction l with
  | nil => left; rfl
  | cons a t ih =>
    cases hp : p a
    · right
      refine ⟨a, ?_, hp⟩
      rw [List.takeWhile_cons_of_neg (by simp [hp])]
      rfl
    · rw [List.takeWhile_cons_of_pos (by simp [hp])]
      rcases ih with h1 | ⟨d, hd, hpd⟩
      · left; rw [h1]
      · right
        exact ⟨d, by rw [List.length_cons, List.get?_cons_succ]; exact hd, hpd⟩

theorem mem_muts_value {row : Row} {env : Env} {f : DField} {v : PyStr}
    (h : (f, v) ∈ (process_row row env).muts) :
    ∃ errMsg scraped, env = Env.page errMsg scraped ∧
      v = (site_data scraped).get f := by
  by_cases hb : clean_house row.house = [] ∨ clean_street row.street = [] ∨
      clean_zip row.zip = []
  · exfalso
    simp only [process_row] at h
    rw [if_pos hb] at h
    simp at h
  · rcases env with msg | ⟨errMsg, scraped⟩
    · exfalso
      simp only [process_row] at h
      rw [if_neg hb] at h
      simp at h
    · by_cases herr : pyStrip errMsg ≠ []
      · exfalso
        simp only [process_row] at h
        rw [if_neg hb, if_pos herr] at h
        simp at h
      · by_cases hemp : (site_data scraped).allEmpty = true
        · exfalso
          simp only [process_row] at h
          rw [if_neg hb, if_neg herr, if_pos hemp] at h
          simp at h
        · simp only [process_row] at h
          rw [if_neg hb, if_neg herr, if_neg hemp] at h
          refine ⟨errMsg, scraped, rfl, ?_⟩
          have h2 : (f, v) ∈ mutations row (site_data scraped) := h
          rcases List.mem_filterMap.mp h2 with ⟨f', hf', heq⟩
          by_cases hne : pyStrip (safe_text (row.getD f')) ≠ (site_data scraped).get f'
          · rw [if_pos hne] at heq
            injection heq with heq
            rw [Prod.mk.injEq] at heq
            rw [← heq.2, ← heq.1]
          · rw [if_neg hne] at heq
            exact Option.noConfusion heq

/-- Claim C9: the value stored in the ED column is the prefix of the
scraped election-district text before its first '/' (the whole text when
no slash occurs), so a stored ED value never contains '/'; the other five
district fields are stored exactly as scraped. -/
theorem ed_stored_prefix_of_scraped :
    ∀ (scraped : Scraped),
      (site_data scraped).ad = scraped.ad ∧
      (site_data scraped).cong = scraped.cong ∧
      (site_data scraped).sd = scraped.sd ∧
      (site_data scraped).council = scraped.council ∧
      (site_data scraped).jd = scraped.jd ∧
      (∃ rest, (site_data scraped).ed ++ rest = scraped.ed) ∧
      (∀ c ∈ (site_data scraped).ed, c ≠ '/') ∧
      ((site_data scraped).ed = scraped.ed ∨
        scraped.ed.get? (site_data scraped).ed.length = some '/') ∧
      (∀ (row : Row) (errMsg : PyStr) (f : DField) (v : PyStr),
        (f, v) ∈ (process_row row (Env.page errMsg scraped)).muts →
        v = (site_data scraped).get f) := by
  intro scraped
  refine ⟨rfl, rfl, rfl, rfl, rfl, ?_, ?_, ?_, ?_⟩
  · exact ⟨scraped.ed.dropWhile (fun c => c != '/'),
      List.takeWhile_append_dropWhile (fun c => c != '/') scraped.ed⟩
  · intro c hc
    have := List.mem_takeWhile_imp hc
    simpa using this
  · rcases get?_after_takeWhile (fun c => c != '/') scraped.ed with h1 | ⟨d, hd, hpd⟩
    · left; exact h1
    · right
      have hd2 : d = '/' := by simpa using hpd
      rw [← hd2]
      exact hd
  · intro row errMsg f v hmem
    rcases mem_muts_value hmem with ⟨errMsg', scraped', heq, hv⟩
    injection heq with h1 h2
    rw [h2]
    exact hv

/-- Witness for C9 at a concrete scraped result with a slash in the
election-district text. -/
theorem ed_stored_prefix_of_scraped_witness :
    (site_data ⟨"10".data, "23/65".data, "7".data, "17".data, "38".data, "2".data⟩).ad =
        "10".data ∧
      (site_data ⟨"10".data, "23/65".data, "7".data, "17".data, "38".data, "2".data⟩).cong =
        "7".data ∧
      (site_data ⟨"10".data, "23/65".data, "7".data, "17".data, "38".data, "2".data⟩).sd =
        "17".data ∧
      (site_data ⟨"10".data, "23/65".data, "7".data, "17".data, "38".data, "2".data⟩).council =
        "38".data ∧
      (site_data ⟨"10".data, "23/65".data, "7".data, "17".data, "38".data, "2".data⟩).jd =
        "2".data ∧
      (∃ rest,
        (site_data ⟨"10".data, "23/65".data, "7".data, "17".data, "38".data, "2".data⟩).ed ++
          rest = "23/65".data) ∧
      (∀ c ∈ (site_data ⟨"10".data, "23/65".data, "7".data, "17".data, "38".data,
          "2".data⟩).ed, c ≠ '/') ∧
      ((site_data ⟨"10".data, "23/65".data, "7".data, "17".data, "38".data, "2".data⟩).ed =
          "23/65".data ∨
        ("23/65".data : PyStr).get?
          (site_data ⟨"10".data, "23/65".data, "7".data, "17".data, "38".data,
            "2".data⟩).ed.length = some '/') ∧
      (∀ (row : Row) (errMsg : PyStr) (f : DField) (v : PyStr),
        (f, v) ∈ (process_row row (Env.page errMsg
          ⟨"10".data, "23/65".data, "7".data, "17".data, "38".data, "2".data⟩)).muts →
        v = (site_data ⟨"10".data, "23/65".data, "7".data, "17".data, "38".data,
          "2".data⟩).get f) :=
  ed_stored_prefix_of_scraped ⟨"10".data, "23/65".data, "7".data, "17".data, "38".data,
    "2".data⟩

theorem digitChar_toNat {d : Nat} (h : d < 10) : (digitChar d).toNat = 48 + d := by
  rw [digitChar, toNat_ofNat_of_lt (by omega)]

theorem natOfDigits_append_digit (l : PyStr) (c : Char) :
    natOfDigits (l ++ [c]) = natOfDigits l * 10 + (c.toNat - 48) := by
  rw [natOfDigits, List.foldl_append]
  rfl

theorem natOfDigits_natReprFuel :
    ∀ (fuel n : Nat), n < 10 ^ fuel → natOfDigits (natReprFuel fuel n) = n := by
  intro fuel
  induction fuel with
  | zero =>
    intro n h
    have h0 : n = 0 := by simpa using h
    rw [h0]
    rfl
  | succ fuel ih =>
    intro n h
    by_cases h10 : n < 10
    · simp only [natReprFuel]
      rw [if_pos h10]
      show 0 * 10 + ((digitChar n).toNat - 48) = n
      rw [digitChar_toNat h10]
      omega
    · simp only [natReprFuel]
      rw [if_neg h10, natOfDigits_append_digit, digitChar_toNat (Nat.mod_lt n (by omega)),
        ih (n / 10) (by rw [Nat.div_lt_iff_lt_mul (by omega)]; rw [pow_succ] at h; exact h)]
      have hdm := Nat.div_add_mod n 10
      omega

theorem natRepr_injective {a b : Nat} (h : natRepr a = natRepr b) : a = b := by
  have hbound : ∀ n : Nat, n < 10 ^ (n + 1) := by
    intro n
    have h1 : n < 10 ^ n := Nat.lt_pow_self (by omega) n
    have h2 : 10 ^ n ≤ 10 ^ (n + 1) := Nat.pow_le_pow_right (by omega) (by omega)
    omega
  have ha : natOfDigits (natRepr a) = a := natOfDigits_natReprFuel (a + 1) a (hbound a)
  have hb : natOfDigits (natRepr b) = b := natOfDigits_natReprFuel (b + 1) b (hbound b)
  rw [natRepr] at ha hb
  rw [natRepr, natRepr] at h
  rw [h] at ha
  rw [hb] at ha
  exact ha.symm

theorem candidate_succ_injective {stem : PyStr} {i j : Nat}
    (h : candidate stem (i + 1) = candidate stem (j + 1)) : i = j := by
  simp only [candidate] at h
  have h1 := List.append_cancel_left h
  simp only [List.cons.injEq, true_and] at h1
  have h2 := List.append_cancel_right h1
  have := natRepr_injective h2
  omega

theorem exists_free_candidate (existing : List PyStr) (stem : PyStr) :
    ∃ j, j < existing.length + 1 ∧ candidate stem (1 + j) ∉ existing := by
  by_contra hcon
  push_neg at hcon
  have hinj : Set.InjOn (fun j => candidate stem (1 + j))
      (Finset.range (existing.length + 1)) := by
    intro a _ b _ hab
    simp only at hab
    rw [Nat.add_comm 1 a, Nat.add_comm 1 b] at hab
    exact candidate_succ_injective hab
  have hmap : ∀ j ∈ Finset.range (existing.length + 1),
      (fun j => candidate stem (1 + j)) j ∈ existing.toFinset := by
    intro j hj
    rw [List.mem_toFinset]
    exact hcon j (Finset.mem_range.mp hj)
  have hcard := Finset.card_le_card_of_injOn _ hmap hinj
  rw [Finset.card_range] at hcard
  have := List.toFinset_card_le existing
  omega

theorem searchFrom_spec (existing : List PyStr) (stem : PyStr) :
    ∀ (fuel i : Nat), (∃ j, j < fuel ∧ candidate stem (i + j) ∉ existing) →
      ∃ k, searchFrom existing stem i fuel = candidate stem (i + k) ∧
        candidate stem (i + k) ∉ existing ∧
        ∀ j < k, candidate stem (i + j) ∈ existing := by
  intro fuel
  induction fuel with
  | zero =>
    rintro i ⟨j, hj, -⟩
    omega
  | succ fuel ih =>
    rintro i ⟨j, hj, hfree⟩
    by_cases hmem : candidate stem i ∈ existing
    · have hj0 : j ≠ 0 := by
        rintro rfl
        rw [Nat.add_zero] at hfree
        exact hfree hmem
      have hex2 : ∃ j', j' < fuel ∧ candidate stem ((i + 1) + j') ∉ existing := by
        refine ⟨j - 1, by omega, ?_⟩
        rw [show (i + 1) + (j - 1) = i + j from by omega]
        exact hfree
      rcases ih (i + 1) hex2 with ⟨k', hk1, hk2, hk3⟩
      refine ⟨k' + 1, ?_, ?_, ?_⟩
      · simp only [searchFrom]
        rw [if_pos hmem, show i + (k' + 1) = (i + 1) + k' from by omega]
        exact hk1
      · rw [show i + (k' + 1) = (i + 1) + k' from by omega]
        exact hk2
      · intro j' hj'
        cases j' with
        | zero => rw [Nat.add_zero]; exact hmem
        | succ j'' =>
          rw [show i + (j'' + 1) = (i + 1) + j'' from by omega]
          exact hk3 j'' (by omega)
    · refine ⟨0, ?_, ?_, ?_⟩
      · simp only [searchFrom]
        rw [if_neg hmem, Nat.add_zero]
      · rw [Nat.add_zero]; exact hmem
      · intro j' hj'; omega

/-- Claim C8: the chosen output path is always the first free name in the
sequence (plain suffixed name, then "(1)", "(2)", ...): the result is
some candidate that does not already exist (never an overwrite), every
earlier candidate in the sequence does exist, and in particular the plain
name is chosen when free, and the "(1)" variant is the next one tried. -/
theorem output_path_first_free (existing : List PyStr) (stem : PyStr) :
    ∃ k, output_path existing stem = candidate stem k ∧
      candidate stem k ∉ existing ∧ ∀ j < k, candidate stem j ∈ existing := by
  by_cases h0 : candidate stem 0 ∈ existing
  · rcases exists_free_candidate existing stem with ⟨j, hj, hfree⟩
    rcases searchFrom_spec existing stem (existing.length + 1) 1 ⟨j, hj, hfree⟩ with
      ⟨k', hk1, hk2, hk3⟩
    refine ⟨1 + k', ?_, hk2, ?_⟩
    · simp only [output_path]
      rw [if_pos h0]
      exact hk1
    · intro j2 hj2
      cases j2 with
      | zero => exact h0
      | succ j' =>
        rw [show j' + 1 = 1 + j' from by omega]
        exact hk3 j' (by omega)
  · refine ⟨0, ?_, h0, ?_⟩
    · simp only [output_path]
      rw [if_neg h0]
    · intro j hj; omega

/-- Witness for C8: with the plain candidate already existing, the
theorem instantiates at a concrete stem and existing-file list. -/
theorem output_path_first_free_witness :
    ∃ k, output_path [candidate "b_with_districts".data 0] "b_with_districts".data =
        candidate "b_with_districts".data k ∧
      candidate "b_with_districts".data k ∉ [candidate "b_with_districts".data 0] ∧
      ∀ j < k, candidate "b_with_districts".data j ∈
        [candidate "b_with_districts".data 0] :=
  output_path_first_free [candidate "b_with_districts".data 0] "b_with_districts".data

/-- Witness for C2 at a concrete row and environment. -/
theorem row_outcome_invariant_witness :
    (((process_row ⟨Cell.str "1".data, Cell.str "A".data, Cell.str "11204".data,
          Cell.nan, Cell.nan, Cell.nan, Cell.nan, Cell.nan, Cell.nan⟩
          (Env.fail "boom".data)).muts ≠ [] ∧
      (process_row ⟨Cell.str "1".data, Cell.str "A".data, Cell.str "11204".data,
          Cell.nan, Cell.nan, Cell.nan, Cell.nan, Cell.nan, Cell.nan⟩
          (Env.fail "boom".data)).entries = []) ∨
     ((process_row ⟨Cell.str "1".data, Cell.str "A".data, Cell.str "11204".data,
          Cell.nan, Cell.nan, Cell.nan, Cell.nan, Cell.nan, Cell.nan⟩
          (Env.fail "boom".data)).muts = [] ∧
      (process_row ⟨Cell.str "1".data, Cell.str "A".data, Cell.str "11204".data,
          Cell.nan, Cell.nan, Cell.nan, Cell.nan, Cell.nan, Cell.nan⟩
          (Env.fail "boom".data)).entries = []) ∨
     ((process_row ⟨Cell.str "1".data, Cell.str "A".data, Cell.str "11204".data,
          Cell.nan, Cell.nan, Cell.nan, Cell.nan, Cell.nan, Cell.nan⟩
          (Env.fail "boom".data)).muts = [] ∧
      (process_row ⟨Cell.str "1".data, Cell.str "A".data, Cell.str "11204".data,
          Cell.nan, Cell.nan, Cell.nan, Cell.nan, Cell.nan, Cell.nan⟩
          (Env.fail "boom".data)).entries.length = 1)) ∧
    (((process_row_v1 ⟨Cell.str "1".data, Cell.str "A".data, Cell.str "11204".data,
          Cell.nan, Cell.nan, Cell.nan, Cell.nan, Cell.nan, Cell.nan⟩
          (Env.fail "boom".data)).muts ≠ [] ∧
      (process_row_v1 ⟨Cell.str "1".data, Cell.str "A".data, Cell.str "11204".data,
          Cell.nan, Cell.nan, Cell.nan, Cell.nan, Cell.nan, Cell.nan⟩
          (Env.fail "boom".data)).entries = []) ∨
     ((process_row_v1 ⟨Cell.str "1".data, Cell.str "A".data, Cell.str "11204".data,
          Cell.nan, Cell.nan, Cell.nan, Cell.nan, Cell.nan, Cell.nan⟩
          (Env.fail "boom".data)).muts = [] ∧
      (process_row_v1 ⟨Cell.str "1".data, Cell.str "A".data, Cell.str "11204".data,
          Cell.nan, Cell.nan, Cell.nan, Cell.nan, Cell.nan, Cell.nan⟩
          (Env.fail "boom".data)).entries = []) ∨
     ((process_row_v1 ⟨Cell.str "1".data, Cell.str "A".data, Cell.str "11204".data,
          Cell.nan, Cell.nan, Cell.nan, Cell.nan, Cell.nan, Cell.nan⟩
          (Env.fail "boom".data)).muts = [] ∧
      (process_row_v1 ⟨Cell.str "1".data, Cell.str "A".data, Cell.str "11204".data,
          Cell.nan, Cell.nan, Cell.nan, Cell.nan, Cell.nan, Cell.nan⟩
          (Env.fail "boom".data)).entries.length = 1)) :=
  row_outcome_invariant
    ⟨Cell.str "1".data, Cell.str "A".data, Cell.str "11204".data,
     Cell.nan, Cell.nan, Cell.nan, Cell.nan, Cell.nan, Cell.nan⟩
    (Env.fail "boom".data)

end PollSite
